import Mathlib

/-!
Verification development for the GGHydro acoustic capture-and-measurement
pipeline.

The Python sources are shallowly embedded:

* float arrays become lists over a value type `FloatVal` (finite rational
  payload, NaN, or signed infinity) where non-finiteness matters, and lists
  over `ℝ` once the data has been sanitized;
* float scalar arithmetic is modelled over `ℚ` where the source only does
  field arithmetic and comparisons, and over `ℝ` where logarithms, square
  roots and π appear (decimal literals denote the exact rationals written in
  the source);
* functions that can raise return `Except String α`, the raised message
  being the one in the source;
* calls into external libraries (scipy bilinear/tf2sos/sosfiltfilt, the
  NI-DAQmx driver) are either taken as explicit function parameters or have
  their relevant behaviour recorded in the returned data, as documented at
  each definition.
-/

namespace GGHydro

/-! ## Value model for float entries -/

/-- Model of one IEEE-float array entry: a finite value (exact rational
payload), NaN, or a signed infinity. -/
inductive FloatVal where
  | fin (q : ℚ)
  | nan
  | posinf
  | neginf
deriving DecidableEq

/-- Embeds `np.isfinite` applied elementwise. -/
def FloatVal.isFinite : FloatVal → Bool
  | .fin _ => true
  | _ => false

/-- Embeds `np.nan_to_num(x, nan=0.0, posinf=0.0, neginf=0.0)` on one entry
(GGHydroSoundAnalyzer/main.py line 68): every non-finite entry becomes 0. -/
def nan_to_num : FloatVal → FloatVal
  | .fin q => .fin q
  | _ => .fin 0

/-- Numeric payload of an entry.  In the analyzer this is only read after
sanitization, when every entry is finite; non-finite entries read as 0. -/
def FloatVal.val : FloatVal → ℚ
  | .fin q => q
  | _ => 0

/-! ## GGHydroSoundAnalyzer/main.py -/

/-- Reference sound pressure in Pa, `P0 = 20e-6` (main.py line 13). -/
def P0 : ℚ := 20 / 1000000

/-- Corner frequency `f1 = 20.598997` Hz (main.py line 29). -/
def f1 : ℚ := 20.598997

/-- Corner frequency `f2 = 107.65265` Hz (main.py line 30). -/
def f2 : ℚ := 107.65265

/-- Corner frequency `f3 = 737.86223` Hz (main.py line 31). -/
def f3 : ℚ := 737.86223

/-- Corner frequency `f4 = 12194.217` Hz (main.py line 32). -/
def f4 : ℚ := 12194.217

/-- Gain constant at 1 kHz, `A1000 = 1.9997` dB (main.py line 35). -/
def A1000 : ℚ := 1.9997

/-- Pointwise sum of two coefficient lists, the shorter one padded with
trailing zeros; helper for `polymul`. -/
def addCoeffs : List ℝ → List ℝ → List ℝ
  | [], ys => ys
  | xs, [] => xs
  | x :: xs, y :: ys => (x + y) :: addCoeffs xs ys

/-- Embeds `np.polymul`: convolution of coefficient lists
(highest-degree-first, as in the source). -/
def polymul : List ℝ → List ℝ → List ℝ
  | [], _ => []
  | a :: p, q => addCoeffs (q.map (a * ·)) ((0 : ℝ) :: polymul p q)

/-- Analog numerator `NUM` of the A-weighting prototype (main.py line 42):
`[(2*pi*f4)^2 * 10^(A1000/20), 0, 0, 0, 0]`. -/
noncomputable def NUM : List ℝ :=
  [(2 * Real.pi * f4) ^ 2 * (10 : ℝ) ^ ((A1000 : ℝ) / 20), 0, 0, 0, 0]

/-- Analog denominator `DEN` of the A-weighting prototype (main.py
lines 43–49), built by the same nested `polymul` calls as the source. -/
noncomputable def DEN : List ℝ :=
  polymul [1, 4 * Real.pi * f4, (2 * Real.pi * f4) ^ 2]
    (polymul [1, 4 * Real.pi * f1, (2 * Real.pi * f1) ^ 2]
      (polymul [1, 2 * Real.pi * f3] [1, 2 * Real.pi * f2]))

/-- Result of the filter design.  `signal.bilinear` and `signal.tf2sos` are
external scipy routines applied deterministically to `(NUM, DEN, fs)`; a
`Sections` value records exactly the data handed to them, so equal `Sections`
values denote equal second-order-section cascades. -/
structure Sections where
  num : List ℝ
  den : List ℝ
  fs : ℚ

/-- The sections designator returned for a given sample rate. -/
noncomputable def aSections (fs : ℚ) : Sections := ⟨NUM, DEN, fs⟩

/-- Embeds `design_a_weighting_sos` (main.py lines 16–54).  The first
component of a successful result is the designed cascade, the second the
list of warnings the call reports: the source reports none on any path.
Raising `ValueError` is modelled by `Except.error` with the raised
message. -/
noncomputable def design_a_weighting_sos (fs : ℚ) :
    Except String (Sections × List String) :=
  if fs ≤ 0 then .error "Sampling frequency must be positive."
  else .ok (aSections fs, [])

/-- Arithmetic mean, `np.mean` on a 1-d array (mean of the empty list is 0
in this model; the embedding only uses it on nonempty lists except inside
the RMS of an abstract filter output, where a 0 default only widens the
sentinel case). -/
noncomputable def mean (l : List ℝ) : ℝ := l.sum / l.length

/-- Root-mean-square, `np.sqrt(np.mean(x ** 2))` (main.py line 79). -/
noncomputable def rmsOf (l : List ℝ) : ℝ :=
  Real.sqrt (mean (l.map (fun y => y ^ 2)))

/-- Sanitized, mean-removed signal that `compute_la_eq` hands to the
zero-phase filter (main.py lines 67–71): non-finite entries are replaced
by zero when present, and the arithmetic mean is subtracted. -/
noncomputable def centered (samples : List FloatVal) : List ℝ :=
  let arr : List FloatVal :=
    if samples.all FloatVal.isFinite then samples else samples.map nan_to_num
  let p : List ℝ := arr.map (fun v => ((v.val : ℚ) : ℝ))
  p.map (fun y => y - mean p)

/-- Embeds `compute_la_eq` (main.py lines 57–85).  The first argument `ff`
stands for the external `scipy.signal.sosfiltfilt`: given the designed
sections and the centered signal it either returns the zero-phase-filtered
signal or raises — `Except.error` carries the raised message.  In
particular the real routine, with its default padding, raises `ValueError`
whenever the input is not longer than its padding length (about 21 samples
for this cascade), and main.py line 75 notes this minimum-length
requirement; such an error propagates out of `compute_la_eq`, as does the
designer error for a non-positive rate.  The `EReal` result represents the
returned float: `⊥` is the negative-infinity "no signal" sentinel
`-np.inf`. -/
noncomputable def compute_la_eq
    (ff : Sections → List ℝ → Except String (List ℝ))
    (samples : List FloatVal) (fs : ℚ) : Except String EReal :=
  if samples.length = 0 then .error "Empty signal."
  else
    let x : List ℝ := centered samples
    match design_a_weighting_sos fs with
    | .error e => .error e
    | .ok (sec, _) =>
      match ff sec x with
      | .error e => .error e
      | .ok x_a =>
        let p_rms_a := rmsOf x_a
        if p_rms_a ≤ 0 then .ok ⊥
        else .ok ((20 * Real.logb 10 (p_rms_a / (P0 : ℝ)) : ℝ) : EReal)

/-- Sample behaviour of the external `scipy.signal.sosfiltfilt`, used to
exercise the analyzer theorems: it rejects signals that are not longer
than the default padding length — 21 for this cascade — with the
ValueError message scipy raises, and passes longer signals through (the
identity stands in for the numeric filtering, which the theorems never
depend on). -/
def sosfiltfiltModel (_sec : Sections) (l : List ℝ) :
    Except String (List ℝ) :=
  if l.length ≤ 21 then
    .error "The length of the input vector x must be greater than padlen, which is 21."
  else .ok l

/-! ## GGHydroSoundRecorder/app/ni_recorder.py -/

/-- Fixed device rate, `SAMPLE_RATE = 25600` Hz (ni_recorder.py line 16). -/
def SAMPLE_RATE : ℚ := 25600

/-- Embeds Python `round` on a float: round-half-to-even. -/
def pyRound (q : ℚ) : ℤ :=
  if q - ⌊q⌋ < 1/2 then ⌊q⌋
  else if 1/2 < q - ⌊q⌋ then ⌊q⌋ + 1
  else if 2 ∣ ⌊q⌋ then ⌊q⌋ else ⌊q⌋ + 1

/-- Embeds Python `int` on a float: truncation toward zero. -/
def pyInt (q : ℚ) : ℤ := if 0 ≤ q then ⌊q⌋ else ⌈q⌉

/-- Default reference pressure `pref = 20e-6` of `pa_to_db_spl`
(ni_recorder.py line 18). -/
def PREF : ℚ := 20 / 1000000

/-- Embeds `pa_to_db_spl` (ni_recorder.py lines 18–21): the pressure is
clamped to at least `1e-12` Pa before taking the logarithm. -/
noncomputable def pa_to_db_spl (p_pa : ℚ) (pref : ℚ) : ℝ :=
  20 * Real.logb 10 ((max p_pa (1 / 10 ^ 12) : ℚ) / (pref : ℝ))

/-- Embeds `estimate_max_spl_db` (ni_recorder.py lines 23–32). -/
noncomputable def estimate_max_spl_db
    (max_input_volts sensitivity_mV_per_Pa : ℚ) : ℝ :=
  let sens_v_per_pa := sensitivity_mV_per_Pa / 1000
  if sens_v_per_pa ≤ 0 then 140
  else pa_to_db_spl (max_input_volts / sens_v_per_pa) PREF

/-- One hardware action issued by `record_microphone_to_tdms`, in source
order.  `cfgTiming` carries the `samps_per_chan` configured for the finite
acquisition. -/
inductive HwAction where
  | createTask
  | addMicChannel
  | setCoupling
  | setSensitivity
  | cfgTiming (samps_per_chan : ℕ)
  | cfgLogging
  | startTask
deriving DecidableEq

/-- Observable outcome of one recording call: the trace of hardware actions
issued, and either the raised message or the number of samples the finished
container holds. -/
structure RecResult where
  actions : List HwAction
  outcome : Except String ℕ

/-- Embeds `record_microphone_to_tdms` (ni_recorder.py lines 34–99) for a
capture that completes without cancellation.

Modelled from the spec: the NI-DAQmx driver is external, and the TDMS
container writing happens inside it (native logging).  Per the spec, a
finite acquisition of `samps_per_chan` samples that completes without
cancellation leaves a container holding exactly the configured
`total_samples` samples.  Everything before the driver calls — the
`total_samples` arithmetic, the validation raise, and the order
validation-before-hardware — is embedded from the source. -/
def record_microphone_to_tdms (duration_s : ℚ) : RecResult :=
  let total_samples := pyRound (SAMPLE_RATE * duration_s)
  if total_samples ≤ 0 then
    ⟨[], .error "Duration too small; total_samples <= 0"⟩
  else
    ⟨[.createTask, .addMicChannel, .setCoupling, .setSensitivity,
      .cfgTiming total_samples.toNat, .cfgLogging, .startTask],
     .ok total_samples.toNat⟩

/-- Embeds the sample count of `DAQWorker.run` (GGHydro-main daq_worker.py
line 31): `total_samples = int(self.duration_sec * self.SAMPLE_RATE)`.

Modelled from the spec: as for `record_microphone_to_tdms`, a completed
finite acquisition delivers exactly the configured sample count to the
container. -/
def daqworker_container_samples (duration_s : ℚ) : ℕ :=
  (pyInt (duration_s * SAMPLE_RATE)).toNat

/-! ## GGHydroSoundRecorder/app/utils.py -/

/-- Characters removed by `sanitize_token`: the class
`[<>:"/\\|?*\x00-\x1F]` of utils.py line 10. -/
def illegalChar (c : Char) : Bool :=
  c ∈ ['<', '>', ':', '\"', '/', '\\', '|', '?', '*'] || c.toNat < 32

/-- ASCII whitespace as matched by Python `str.strip` and the regex `\s`
(the repository only feeds ASCII form text through these helpers). -/
def pyIsSpace (c : Char) : Bool :=
  c ∈ [' ', '\t', '\n', '\r', '\x0b', '\x0c']

/-- Strips leading and trailing whitespace, Python `str.strip()`. -/
def pyStrip (l : List Char) : List Char :=
  ((l.dropWhile pyIsSpace).reverse.dropWhile pyIsSpace).reverse

/-- Replaces each maximal run of whitespace by one space,
`re.sub(r"\s+", " ", text)` (utils.py line 8).  The boolean records whether
the previous character was part of a whitespace run. -/
def collapseWs : List Char → Bool → List Char
  | [], _ => []
  | c :: rest, inRun =>
    if pyIsSpace c then
      if inRun then collapseWs rest true else ' ' :: collapseWs rest true
    else c :: collapseWs rest false

/-- Embeds `sanitize_token` (utils.py lines 6–12) with the default
`max_len = 60`: strip, collapse whitespace runs, remove illegal characters,
strip again, truncate to 60 characters, and return "NA" for an empty
result. -/
def sanitize_token (text : String) : String :=
  let t1 := pyStrip text.data
  let t2 := collapseWs t1 false
  let t3 := t2.filter (fun c => !illegalChar c)
  let t4 := pyStrip t3
  if t4 = [] then "NA" else String.mk (t4.take 60)

/-- Embeds `build_tdms_filename` (utils.py lines 20–26).  The current date
string produced by `today_yyyy_mm_dd()` is external input (the system
clock) and is passed as the `date_str` parameter. -/
def build_tdms_filename (date_str project unit unit_state location : String) :
    String :=
  date_str ++ " - " ++ project ++ " - " ++ unit ++ " - " ++ unit_state ++
    " - " ++ location ++ ".tdms"

/-- The filename builder as invoked by the recorder window
(main_window.py lines 243–252): each free-text token is passed through
`sanitize_token` and the results through `build_tdms_filename`. -/
def filename_for (date_str project unit unit_state location : String) :
    String :=
  build_tdms_filename date_str (sanitize_token project) (sanitize_token unit)
    (sanitize_token unit_state) (sanitize_token location)

/-- Model of a filesystem path as used by `increment_path`: parent
directory, stem and suffix, compared componentwise (`pathlib.Path`
equality; the paths built here have a single-extension suffix, so the
decomposition is canonical). -/
structure PathM where
  dir : String
  stem : String
  suffix : String
deriving DecidableEq

/-- The candidate `path.with_name(f"{stem} ({n}){suffix}")` of utils.py
line 41. -/
def candidate (p : PathM) (n : ℕ) : PathM :=
  { p with stem := p.stem ++ " (" ++ Nat.repr n ++ ")" }

/-- Embeds `increment_path` (utils.py lines 31–44).  The filesystem is the
predicate `ex` (`Path.exists()`); the argument `hfree` states that some
candidate with index ≥ 2 does not exist — exactly the condition under which
the source loop terminates, and a consequence of only finitely many sibling
paths existing.  `Nat.find hfree` is the loop: the first `n` from 2 upward
whose candidate does not exist. -/
def increment_path (ex : PathM → Bool) (p : PathM)
    (hfree : ∃ k, ex (candidate p (k + 2)) = false) : PathM :=
  if ex p then candidate p (Nat.find hfree + 2) else p

/-! ## Store-passing view of the analyzer (frame effects)

To talk about mutation of the caller's array, `compute_la_eq` is embedded a
second time with an explicit array store.  A `Cell` is one allocated numpy
array (float entries before sanitization, real entries afterwards); the
store is the list of allocated cells, an array is designated by its index,
and allocation appends.  Each numpy call of the source that returns an
array is an allocation, because the source only uses the copying forms:
`np.nan_to_num` with its default `copy=True`, broadcasting subtraction,
`signal.sosfiltfilt`, and `x_a ** 2`.  No in-place operation occurs. -/

/-- One allocated array in the store. -/
inductive Cell where
  | fv (l : List FloatVal)
  | rv (l : List ℝ)

/-- Store-passing embedding of `compute_la_eq` (main.py lines 57–85): the
input array is the cell at index `i`; the returned store extends the given
one by the arrays the call allocates. -/
noncomputable def runLaEqHeap (ff : Sections → List ℝ → List ℝ)
    (h : List Cell) (i : ℕ) (fs : ℚ) : List Cell × Except String EReal :=
  let samples : List FloatVal :=
    match h.getD i (Cell.fv []) with
    | .fv l => l
    | .rv _ => []
  if samples.length = 0 then (h, .error "Empty signal.")
  else
    let arr : List FloatVal :=
      if samples.all FloatVal.isFinite then samples else samples.map nan_to_num
    let h1 : List Cell :=
      if samples.all FloatVal.isFinite then h else h ++ [Cell.fv arr]
    let p : List ℝ := arr.map (fun v => ((v.val : ℚ) : ℝ))
    let x : List ℝ := p.map (fun y => y - mean p)
    let h2 := h1 ++ [Cell.rv x]
    match design_a_weighting_sos fs with
    | .error e => (h2, .error e)
    | .ok (sec, _) =>
      let xa := ff sec x
      let h3 := h2 ++ [Cell.rv xa]
      let sq := xa.map (fun y => y ^ 2)
      let h4 := h3 ++ [Cell.rv sq]
      let p_rms_a := Real.sqrt (mean sq)
      if p_rms_a ≤ 0 then (h4, .ok ⊥)
      else (h4, .ok ((20 * Real.logb 10 (p_rms_a / (P0 : ℝ)) : ℝ) : EReal))

/-! ## Spec-side reference definitions

The following definitions are written from the wording of the
specification, to be compared with the embeddings above. -/

/-- Reference level pipeline, from the spec wording of `computeLevel`
(§4.5): sanitize non-finite values to zero, remove the arithmetic mean,
apply the designed weighting filter zero-phase, take the RMS, and return
the sentinel exactly when the RMS is zero, else `20*log10(rms/P0)`. -/
noncomputable def computeLevelSpec (ff : Sections → List ℝ → List ℝ)
    (samples : List FloatVal) (fs : ℚ) : EReal :=
  let sanitized : List ℝ :=
    samples.map (fun v => if v.isFinite then ((v.val : ℚ) : ℝ) else 0)
  let centered : List ℝ := sanitized.map (fun y => y - mean sanitized)
  let filtered := ff (aSections fs) centered
  let rms := rmsOf filtered
  if rms = 0 then ⊥
  else ((20 * Real.logb 10 (rms / (P0 : ℝ)) : ℝ) : EReal)

/-- What `compute_la_eq` reports about sanitized entries: nothing.  The
source (main.py lines 65–85) contains no counter and no reporting of how
many non-finite values were replaced; its only output is the return
value. -/
def reported_replacements (_samples : List FloatVal) (_fs : ℚ) : Option ℕ :=
  none

/-- Number of replaced entries the spec pipeline counts and reports: the
number of non-finite entries of the input. -/
def spec_replacement_count (samples : List FloatVal) : ℕ :=
  (samples.filter (fun v => !v.isFinite)).length

/-- Token sanitization as worded by the claim for the filename builder, in
the order stated there: remove the illegal characters, collapse internal
whitespace to single spaces, strip surrounding whitespace, truncate, and
replace an empty result by the placeholder. -/
def sanitize_claimed (text : String) : String :=
  let t1 := text.data.filter (fun c => !illegalChar c)
  let t2 := collapseWs t1 false
  let t3 := pyStrip t2
  if t3 = [] then "NA" else String.mk (t3.take 60)

/-- Filename builder as worded by the claim: the bit-exact template over
claim-sanitized tokens. -/
def claimed_filename (date_str project unit unit_state location : String) :
    String :=
  date_str ++ " - " ++ sanitize_claimed project ++ " - " ++
    sanitize_claimed unit ++ " - " ++ sanitize_claimed unit_state ++ " - " ++
    sanitize_claimed location ++ ".tdms"

/-! ## Supporting lemmas -/

/-- The designer succeeds on every positive sample rate and reports no
warning. -/
theorem design_ok {fs : ℚ} (h : 0 < fs) :
    design_a_weighting_sos fs = .ok (aSections fs, []) := by
  simp [design_a_weighting_sos, not_le.2 h]

theorem pyRound_ge (q : ℚ) : ⌊q⌋ ≤ pyRound q := by
  unfold pyRound
  split_ifs <;> omega

theorem pyRound_le (q : ℚ) : pyRound q ≤ ⌊q⌋ + 1 := by
  unfold pyRound
  split_ifs <;> omega

theorem pyRound_le_ceil (q : ℚ) : pyRound q ≤ ⌈q⌉ := by
  have hfc : ⌊q⌋ ≤ ⌈q⌉ := Int.floor_le_ceil q
  have key : 1/2 ≤ q - ⌊q⌋ → ⌊q⌋ + 1 ≤ ⌈q⌉ := by
    intro hr
    have h1 : (⌊q⌋ : ℚ) < q := by linarith
    have h2 : q ≤ (⌈q⌉ : ℚ) := Int.le_ceil q
    exact_mod_cast Int.add_one_le_of_lt (by exact_mod_cast lt_of_lt_of_le h1 h2)
  unfold pyRound
  split_ifs with h1 h2 h3
  · exact hfc
  · exact key (le_of_lt h2)
  · exact hfc
  · exact key (by linarith)

theorem round_ge (q : ℚ) : ⌊q⌋ ≤ round q := by
  rw [round_eq]
  exact Int.floor_le_floor (by linarith)

theorem round_le (q : ℚ) : round q ≤ ⌊q⌋ + 1 := by
  rw [round_eq]
  have h1 : q + 1/2 < ((⌊q⌋ + 2 : ℤ) : ℚ) := by
    have := Int.lt_floor_add_one q
    push_cast
    linarith
  have h2 := Int.floor_lt.2 h1
  omega

/-- Every element of the filtered signal being zero forces a zero RMS. -/
theorem rmsOf_eq_zero {l : List ℝ} (h : ∀ y ∈ l, y = 0) : rmsOf l = 0 := by
  unfold rmsOf mean
  have hs : (l.map (fun y => y ^ 2)).sum = 0 := by
    apply List.sum_eq_zero
    intro x hx
    obtain ⟨y, hy, rfl⟩ := List.mem_map.1 hx
    rw [h y hy]
    ring
  rw [hs]
  simp

/-- Lower bound on the clamped level conversion: the `1e-12` Pa clamp keeps
the logarithm argument at least `5e-8`, so the result never falls below
−160 dB (and in particular is never negative infinity). -/
theorem pa_to_db_spl_lb (p : ℚ) : (-160 : ℝ) ≤ pa_to_db_spl p PREF := by
  unfold pa_to_db_spl
  have hm : ((1/10^12 : ℚ) : ℝ) ≤ ((max p (1/10^12) : ℚ) : ℝ) :=
    Rat.cast_le.mpr (le_max_right _ _)
  have hpref : ((PREF : ℚ) : ℝ) = 1/50000 := by norm_num [PREF]
  have hx : (10:ℝ) ^ (-8 : ℝ) ≤ ((max p (1/10^12) : ℚ) : ℝ) / ((PREF : ℚ) : ℝ) := by
    rw [show (-8:ℝ) = ((-8:ℤ):ℝ) by norm_num, Real.rpow_intCast, hpref,
      le_div_iff₀ (by norm_num : (0:ℝ) < 1/50000)]
    norm_num at hm ⊢
  have hpos : (0:ℝ) < ((max p (1/10^12) : ℚ) : ℝ) / ((PREF : ℚ) : ℝ) := by
    rw [hpref]
    norm_num at hm ⊢
  have hlog := (Real.le_logb_iff_rpow_le (by norm_num : (1:ℝ) < 10) hpos).2 hx
  nlinarith [hlog]

/-- C9: the max-level estimate is total and finite.  A sensitivity of at
most 0 mV/Pa yields exactly 140.0; a positive sensitivity routes through
`pa_to_db_spl`, whose clamp keeps the result a real number at least
−160 dB, for every input voltage including 0 — no exception and no
negative infinity. -/
theorem c9_estimate_total (v s : ℚ) :
    (s ≤ 0 → estimate_max_spl_db v s = 140) ∧
    (0 < s → estimate_max_spl_db v s = pa_to_db_spl (v / (s / 1000)) PREF ∧
      (-160 : ℝ) ≤ estimate_max_spl_db v s) := by
  constructor
  · intro hs
    have h0 : s / 1000 ≤ 0 := by
      apply div_nonpos_of_nonpos_of_nonneg hs
      norm_num
    simp [estimate_max_spl_db, h0]
  · intro hs
    have h0 : ¬ (s / 1000 ≤ 0) := not_le.2 (by positivity)
    unfold estimate_max_spl_db
    rw [if_neg h0]
    exact ⟨rfl, pa_to_db_spl_lb _⟩

/-- Witness for `c9_estimate_total` at sensitivity −1 (clamped branch) and
at voltage 0 with sensitivity 50. -/
theorem c9_estimate_total_witness :
    estimate_max_spl_db 5 (-1) = 140 ∧ (-160 : ℝ) ≤ estimate_max_spl_db 0 50 :=
  ⟨(c9_estimate_total 5 (-1)).1 (by norm_num),
   ((c9_estimate_total 0 50).2 (by norm_num)).2⟩

/-- C4 counterexample: at the sample rate 20000 Hz — positive but below
twice the highest corner frequency 2 × 12194.217 — the designer succeeds
with an empty warning list: no degraded-accuracy warning is reported,
contrary to the claim (the source has no warning on any path). -/
theorem c4_counterexample :
    (0 : ℚ) < 20000 ∧ (20000 : ℚ) < 2 * f4 ∧
    design_a_weighting_sos 20000 = .ok (aSections 20000, []) :=
  ⟨by norm_num, by norm_num [f4], design_ok (by norm_num)⟩

/-- C4 amended: the designer fails (raises `ValueError`) exactly when the
sample rate is ≤ 0; on every positive sample rate, including those below
twice the highest corner frequency, it returns the filter sections and
reports no warning. -/
theorem c4_design_error_iff (fs : ℚ) :
    ((∃ e, design_a_weighting_sos fs = .error e) ↔ fs ≤ 0) ∧
    (0 < fs → design_a_weighting_sos fs = .ok (aSections fs, [])) := by
  refine ⟨⟨?_, ?_⟩, fun h => design_ok h⟩
  · rintro ⟨e, he⟩
    by_contra h
    rw [design_ok (not_le.1 h)] at he
    simp at he
  · intro h
    exact ⟨"Sampling frequency must be positive.",
      by simp [design_a_weighting_sos, h]⟩

/-- Witness for `c4_design_error_iff` at −1 (failure) and 12000
(success below twice the highest corner frequency). -/
theorem c4_design_error_iff_witness :
    (∃ e, design_a_weighting_sos (-1) = .error e) ∧
    design_a_weighting_sos 12000 = .ok (aSections 12000, []) :=
  ⟨(c4_design_error_iff (-1)).1.2 (by norm_num),
   (c4_design_error_iff 12000).2 (by norm_num)⟩

/-- C5: a capture that completes without cancellation leaves a container
whose sample count is within ±1 of `round(d × sampleRate)` at the fixed
device rate, for both recorder variants: `record_microphone_to_tdms`
(which requests `round(25600·d)` samples, Python half-even rounding) and
`DAQWorker.run` (which requests `int(d·25600)`, truncation). -/
theorem c5_sample_count (d : ℚ) (hd : 0 < d) :
    (∀ n, (record_microphone_to_tdms d).outcome = .ok n →
      ((n : ℤ) - round (d * SAMPLE_RATE)).natAbs ≤ 1) ∧
    ((daqworker_container_samples d : ℤ) - round (d * SAMPLE_RATE)).natAbs ≤ 1 := by
  have hq : d * SAMPLE_RATE = SAMPLE_RATE * d := mul_comm _ _
  have hsr : (0:ℚ) < SAMPLE_RATE := by norm_num [SAMPLE_RATE]
  constructor
  · intro n hn
    by_cases htot : pyRound (SAMPLE_RATE * d) ≤ 0
    · simp [record_microphone_to_tdms, htot] at hn
    · simp only [record_microphone_to_tdms, if_neg htot,
        Except.ok.injEq] at hn
      have b1 := pyRound_ge (SAMPLE_RATE * d)
      have b2 := pyRound_le (SAMPLE_RATE * d)
      have b3 := round_ge (SAMPLE_RATE * d)
      have b4 := round_le (SAMPLE_RATE * d)
      have hr : round (d * SAMPLE_RATE) = round (SAMPLE_RATE * d) := by
        rw [hq]
      omega
  · have hq0 : (0:ℚ) ≤ d * SAMPLE_RATE := mul_nonneg hd.le hsr.le
    have hfl : 0 ≤ ⌊d * SAMPLE_RATE⌋ := Int.floor_nonneg.2 hq0
    simp only [daqworker_container_samples, pyInt, if_pos hq0]
    have b3 := round_ge (d * SAMPLE_RATE)
    have b4 := round_le (d * SAMPLE_RATE)
    omega

/-- Witness for `c5_sample_count` at duration 1 s: both variants hold
25600 samples, within ±1 of `round(1 × 25600)`. -/
theorem c5_sample_count_witness :
    (((25600 : ℕ) : ℤ) - round ((1:ℚ) * SAMPLE_RATE)).natAbs ≤ 1 ∧
    ((daqworker_container_samples 1 : ℤ) -
      round ((1:ℚ) * SAMPLE_RATE)).natAbs ≤ 1 := by
  have h := c5_sample_count 1 (by norm_num)
  refine ⟨h.1 25600 ?_, h.2⟩
  norm_num [record_microphone_to_tdms, SAMPLE_RATE, pyRound]
  rfl

/-- C8 counterexample: the duration 3/102400 s is positive but covers only
three quarters of one sample period at 25600 Hz, so it fails the claimed
"covers at least one sample period" check; yet the code accepts it —
hardware actions are issued and one sample is recorded — because the
actual check only requires `round(25600·d) ≥ 1`. -/
theorem c8_counterexample :
    (0 : ℚ) < 3/102400 ∧ (3/102400 : ℚ) < 1 / SAMPLE_RATE ∧
    (record_microphone_to_tdms (3/102400)).actions ≠ [] ∧
    (record_microphone_to_tdms (3/102400)).outcome = .ok 1 := by
  refine ⟨by norm_num, by norm_num [SAMPLE_RATE], ?_, ?_⟩
  · norm_num [record_microphone_to_tdms, SAMPLE_RATE, pyRound]
    exact List.cons_ne_nil _ _
  · norm_num [record_microphone_to_tdms, SAMPLE_RATE, pyRound]

/-- C8 amended: the validation check is `round(25600·d) ≤ 0`, raising
before any hardware action (empty action trace) whenever it fires — in
particular for every duration ≤ 0 — and accepting, with hardware actions
and a positive requested sample count, every duration of at least one
sample period (durations down to just over half a sample period are also
accepted, as the counterexample shows). -/
theorem c8_validation (d : ℚ) :
    (pyRound (SAMPLE_RATE * d) ≤ 0 →
      record_microphone_to_tdms d =
        ⟨[], .error "Duration too small; total_samples <= 0"⟩) ∧
    (d ≤ 0 →
      record_microphone_to_tdms d =
        ⟨[], .error "Duration too small; total_samples <= 0"⟩) ∧
    (1 / SAMPLE_RATE ≤ d →
      (record_microphone_to_tdms d).actions ≠ [] ∧
      ∃ n : ℕ, 0 < n ∧ (record_microphone_to_tdms d).outcome = .ok n) := by
  have hsr : (0:ℚ) < SAMPLE_RATE := by norm_num [SAMPLE_RATE]
  have hrec : pyRound (SAMPLE_RATE * d) ≤ 0 →
      record_microphone_to_tdms d =
        ⟨[], .error "Duration too small; total_samples <= 0"⟩ := by
    intro h
    simp [record_microphone_to_tdms, h]
  refine ⟨hrec, fun hd => hrec ?_, fun hd => ?_⟩
  · have hq : SAMPLE_RATE * d ≤ 0 := by
      have := mul_le_mul_of_nonneg_left hd hsr.le
      simpa using this
    have hceil : ⌈SAMPLE_RATE * d⌉ ≤ 0 := Int.ceil_le.2 (by exact_mod_cast hq)
    exact le_trans (pyRound_le_ceil _) hceil
  · have h1 : (1:ℚ) ≤ SAMPLE_RATE * d := by
      have h2 := mul_le_mul_of_nonneg_left hd hsr.le
      rwa [mul_one_div, div_self (ne_of_gt hsr)] at h2
    have hfl : 1 ≤ ⌊SAMPLE_RATE * d⌋ := by
      rw [Int.le_floor]
      exact_mod_cast h1
    have hpr := pyRound_ge (SAMPLE_RATE * d)
    have hne : ¬ (pyRound (SAMPLE_RATE * d) ≤ 0) := by omega
    refine ⟨?_, (pyRound (SAMPLE_RATE * d)).toNat, by omega, ?_⟩
    · simp [record_microphone_to_tdms, hne]
    · simp [record_microphone_to_tdms, hne]

/-- Witness for `c8_validation` at durations −1 s (rejected with no
hardware action) and 1 s (accepted). -/
theorem c8_validation_witness :
    record_microphone_to_tdms (-1) =
      ⟨[], .error "Duration too small; total_samples <= 0"⟩ ∧
    ((record_microphone_to_tdms 1).actions ≠ [] ∧
      ∃ n : ℕ, 0 < n ∧ (record_microphone_to_tdms 1).outcome = .ok n) :=
  ⟨(c8_validation (-1)).2.1 (by norm_num),
   (c8_validation 1).2.2 (by norm_num [SAMPLE_RATE])⟩

/-- Stripping only removes characters. -/
theorem mem_of_mem_pyStrip {c : Char} {l : List Char} (h : c ∈ pyStrip l) :
    c ∈ l := by
  simp only [pyStrip, List.mem_reverse] at h
  exact (List.dropWhile_sublist pyIsSpace).mem
    (List.mem_reverse.1 ((List.dropWhile_sublist pyIsSpace).mem h))

/-- Guarantees of the token sanitizer: bounded length, nonempty result,
and no illegal character survives. -/
theorem sanitize_token_props (t : String) :
    (sanitize_token t).length ≤ 60 ∧ sanitize_token t ≠ "" ∧
    ∀ c ∈ (sanitize_token t).data, illegalChar c = false := by
  simp only [sanitize_token]
  split_ifs with h
  · exact ⟨by decide, by decide, by decide⟩
  · refine ⟨?_, ?_, ?_⟩
    · show (String.mk _).length ≤ 60
      simp only [String.length]
      rw [List.length_take]
      exact min_le_left _ _
    · intro hc
      have hdata := congrArg String.data hc
      simp only [String.data] at hdata
      rcases List.take_eq_nil_iff.1 hdata with h60 | hnil
      · exact absurd h60 (by norm_num)
      · exact h hnil
    · intro c hc
      simp only [String.data] at hc
      have h1 : c ∈ pyStrip (List.filter (fun c => !illegalChar c)
          (collapseWs (pyStrip t.data) false)) := List.take_subset _ _ hc
      have h2 := mem_of_mem_pyStrip h1
      have h3 := List.of_mem_filter h2
      simpa using h3

/-- C6 counterexample: on the state token `a< >< >b` the code first
collapses whitespace and only then removes the illegal characters, leaving
the two spaces that surrounded the removed pairs adjacent; sanitizing in
the order the claim states yields a single space, so the two filenames
differ. -/
theorem c6_counterexample :
    filename_for "2025-01-15" "PIT5" "U1" "a< >< >b" "G1" =
      "2025-01-15 - PIT5 - U1 - a  b - G1.tdms" ∧
    claimed_filename "2025-01-15" "PIT5" "U1" "a< >< >b" "G1" =
      "2025-01-15 - PIT5 - U1 - a b - G1.tdms" ∧
    filename_for "2025-01-15" "PIT5" "U1" "a< >< >b" "G1" ≠
      claimed_filename "2025-01-15" "PIT5" "U1" "a< >< >b" "G1" :=
  ⟨by decide, by decide, by decide⟩

/-- C6 amended: the filename builder produces exactly
`date - project - unit - state - location.tdms` over sanitized tokens,
where sanitization strips surrounding whitespace, collapses internal
whitespace runs to single spaces, then removes the illegal characters
(possibly leaving adjacent spaces), strips again, truncates to 60
characters and replaces an empty result with the placeholder "NA"; the
result never exceeds 60 characters, is never empty and contains no illegal
character, and the PIT5 example from the claim is produced bit-exactly. -/
theorem c6_filename_builder :
    (∀ date p u s l, filename_for date p u s l =
        date ++ " - " ++ sanitize_token p ++ " - " ++ sanitize_token u ++
          " - " ++ sanitize_token s ++ " - " ++ sanitize_token l ++ ".tdms") ∧
    filename_for "2025-01-15" "PIT5" "U1" "Full Load" "G1" =
      "2025-01-15 - PIT5 - U1 - Full Load - G1.tdms" ∧
    ∀ t : String, (sanitize_token t).length ≤ 60 ∧ sanitize_token t ≠ "" ∧
      ∀ c ∈ (sanitize_token t).data, illegalChar c = false :=
  ⟨fun _ _ _ _ _ => rfl, by decide, sanitize_token_props⟩

/-- Witness for `c6_filename_builder`: instantiates the sanitizer
guarantees at the token `a<b` and the character `a`. -/
theorem c6_filename_builder_witness :
    illegalChar 'a' = false ∧
    filename_for "2025-01-15" "PIT5" "U1" "Full Load" "G1" =
      "2025-01-15 - PIT5 - U1 - Full Load - G1.tdms" :=
  ⟨(c6_filename_builder.2.2 "a<b").2.2 'a' (by decide),
   c6_filename_builder.2.1⟩

/-- Specification of `increment_path` over an arbitrary existence
predicate: on a path that does not exist it returns the path unchanged; on
an existing path it returns `stem (N)suffix` for the smallest N ≥ 2 whose
candidate does not exist; in both cases the returned path does not exist
at call time. -/
theorem increment_path_spec (ex : PathM → Bool) (p : PathM)
    (hfree : ∃ k, ex (candidate p (k + 2)) = false) :
    ex (increment_path ex p hfree) = false ∧
    (ex p = false → increment_path ex p hfree = p) ∧
    (ex p = true → ∃ N, 2 ≤ N ∧
      increment_path ex p hfree = candidate p N ∧
      ex (candidate p N) = false ∧
      ∀ m, 2 ≤ m → m < N → ex (candidate p m) = true) := by
  unfold increment_path
  by_cases hp : ex p = true
  · rw [if_pos hp]
    have hspec := Nat.find_spec hfree
    refine And.intro hspec (And.intro ?_ ?_)
    · intro h
      rw [hp] at h
      cases h
    · intro _
      refine ⟨Nat.find hfree + 2, by omega, rfl, hspec, ?_⟩
      intro m hm2 hmlt
      have hmin : ¬ (ex (candidate p ((m - 2) + 2)) = false) :=
        Nat.find_min hfree (by omega)
      have hm : m - 2 + 2 = m := by omega
      rw [hm] at hmin
      simpa using hmin
  · rw [if_neg hp]
    have hpf : ex p = false := by simpa using hp
    exact ⟨hpf, fun _ => rfl, fun h => absurd h (by simp [hpf])⟩

/-- Finite filesystem model: the file at `q` exists when `q` is in the
finite set `S` of existing paths. -/
def finExists (S : Finset PathM) (q : PathM) : Bool := decide (q ∈ S)

/-- Digit-string length lower bound for `Nat.toDigitsCore`: with
sufficient fuel, a number is smaller than 10 to the number of digits
printed for it. -/
theorem lt_pow_toDigitsCore_length :
    ∀ (fuel n : ℕ), n < fuel →
      n < 10 ^ (Nat.toDigitsCore 10 fuel n []).length := by
  intro fuel
  induction fuel with
  | zero => intro n h; omega
  | succ f ih =>
    intro n hn
    simp only [Nat.toDigitsCore]
    by_cases h0 : n / 10 = 0
    · rw [if_pos h0]
      have hlt : n < 10 := by omega
      simpa using hlt
    · rw [if_neg h0, Nat.toDigitsCore_lens_eq]
      have h10 : 10 ≤ n := by omega
      have hq : n / 10 < f := by omega
      have hih := ih (n / 10) hq
      have hmod : n % 10 < 10 := Nat.mod_lt n (by norm_num)
      have hdiv : 10 * (n / 10) + n % 10 = n := Nat.div_add_mod n 10
      rw [pow_succ]
      generalize 10 ^ (Nat.toDigitsCore 10 f (n / 10) []).length = t at hih ⊢
      omega

/-- A number is smaller than 10 to the length of its decimal
representation; hence `Nat.repr` lengths are unbounded. -/
theorem lt_pow_repr_length (n : ℕ) : n < 10 ^ (Nat.repr n).length := by
  have h := lt_pow_toDigitsCore_length (n+1) n (by omega)
  simpa [Nat.repr, Nat.toDigits, List.asString, String.length] using h

/-- In any finite filesystem some increment candidate is free: a candidate
whose index has more decimal digits than the longest existing stem cannot
be an existing path.  This is the termination argument for the source
while-loop. -/
theorem exists_free_candidate (S : Finset PathM) (p : PathM) :
    ∃ k, finExists S (candidate p (k + 2)) = false := by
  set L := S.sup (fun q => q.stem.length) with hL
  have h10 : 10 ≤ 10 ^ (L + 1) := by
    calc 10 = 10 ^ 1 := by norm_num
    _ ≤ 10 ^ (L + 1) := Nat.pow_le_pow_right (by norm_num) (by omega)
  refine ⟨10 ^ (L + 1) - 2, ?_⟩
  have h2 : 10 ^ (L + 1) - 2 + 2 = 10 ^ (L + 1) := by omega
  rw [h2]
  simp only [finExists, decide_eq_false_iff_not]
  intro hmem
  have hsup : (candidate p (10 ^ (L+1))).stem.length ≤ L :=
    Finset.le_sup (f := fun q => q.stem.length) hmem
  have hlen : (candidate p (10 ^ (L+1))).stem.length =
      p.stem.length + 2 + (Nat.repr (10 ^ (L+1))).length + 1 := by
    simp [candidate, String.length_append,
      show (" (" : String).length = 2 from rfl,
      show (")" : String).length = 1 from rfl]
  have hrepr : L + 1 < (Nat.repr (10 ^ (L+1))).length := by
    have h := lt_pow_repr_length (10 ^ (L+1))
    exact (Nat.pow_lt_pow_iff_right (by norm_num)).1 h
  omega

/-- C7: over a finite filesystem `S`, `increment_path` on an existing path
returns `stem (N)suffix` for the smallest N ≥ 2 whose candidate does not
exist — a free candidate always exists by `exists_free_candidate` — the
returned path never exists at call time, and a path that does not exist is
returned unchanged. -/
theorem c7_increment_path (S : Finset PathM) (p : PathM) :
    finExists S (increment_path (finExists S) p
      (exists_free_candidate S p)) = false ∧
    (finExists S p = false →
      increment_path (finExists S) p (exists_free_candidate S p) = p) ∧
    (finExists S p = true → ∃ N, 2 ≤ N ∧
      increment_path (finExists S) p (exists_free_candidate S p) =
        candidate p N ∧
      finExists S (candidate p N) = false ∧
      ∀ m, 2 ≤ m → m < N → finExists S (candidate p m) = true) :=
  increment_path_spec (finExists S) p (exists_free_candidate S p)

/-- Concrete base path for the `increment_path` witness. -/
def basePath : PathM :=
  ⟨"recordings", "2025-01-15 - PIT5 - U1 - Full Load - G1", ".tdms"⟩

/-- Concrete filesystem for the witness: the base path and its first
increment candidate exist, nothing else does. -/
def sampleFS : Finset PathM := {basePath, candidate basePath 2}

/-- Witness for `c7_increment_path` on the sample filesystem: the base
path exists, and the incremented result does not. -/
theorem c7_increment_path_witness :
    finExists sampleFS basePath = true ∧
    finExists sampleFS (increment_path (finExists sampleFS) basePath
      (exists_free_candidate sampleFS basePath)) = false ∧
    ∃ N, 2 ≤ N ∧
      increment_path (finExists sampleFS) basePath
        (exists_free_candidate sampleFS basePath) = candidate basePath N ∧
      finExists sampleFS (candidate basePath N) = false ∧
      ∀ m, 2 ≤ m → m < N → finExists sampleFS (candidate basePath m) = true :=
  ⟨by decide, (c7_increment_path sampleFS basePath).1,
   (c7_increment_path sampleFS basePath).2.2 (by decide)⟩

/-- C1 counterexample: on the empty array `compute_la_eq` raises
`ValueError("Empty signal.")` (main.py lines 65–66) instead of returning
the negative-infinity sentinel, so malformed/empty input does not always
yield the sentinel rather than a thrown fault. -/
theorem c1_counterexample :
    compute_la_eq (fun _ x => .ok x) [] 25600 = .error "Empty signal." := by
  simp [compute_la_eq]

/-- On a nonzero-length signal whose entries are all zero or non-finite,
the signal handed to the zero-phase filter is the all-zero signal. -/
theorem centered_eq_replicate_zero {samples : List FloatVal}
    (hall : ∀ v ∈ samples, v = FloatVal.fin 0 ∨ v.isFinite = false) :
    centered samples = List.replicate samples.length (0:ℝ) := by
  have hp : (if samples.all FloatVal.isFinite then samples
      else samples.map nan_to_num).map (fun v => ((v.val : ℚ) : ℝ)) =
      List.replicate samples.length (0:ℝ) := by
    rw [List.eq_replicate_iff]
    constructor
    · split_ifs <;> simp
    · intro b hb
      split_ifs at hb with hfin
      · obtain ⟨v, hv, rfl⟩ := List.mem_map.1 hb
        rcases hall v hv with rfl | hnf
        · simp [FloatVal.val]
        · exact absurd (List.all_eq_true.1 hfin v hv) (by simp [hnf])
      · rw [List.map_map] at hb
        obtain ⟨v, hv, rfl⟩ := List.mem_map.1 hb
        rcases hall v hv with rfl | hnf
        · simp [nan_to_num, FloatVal.val]
        · cases v <;> simp_all [nan_to_num, FloatVal.val, FloatVal.isFinite]
  simp only [centered]
  rw [hp]
  have hmean : mean (List.replicate samples.length (0:ℝ)) = 0 := by
    simp [mean, List.sum_replicate]
  rw [hmean]
  simp [List.map_replicate]

/-- C1 amended: `compute_la_eq` raises on the empty array (see the
counterexample); on a nonzero-length signal whose entries are all zero or
non-finite — covering the all-zero signal of any nonzero length and the
fully malformed signal, which sanitization turns into zeros — it returns
the sentinel exactly when the zero-phase filter call succeeds (its output
on the zero signal being zero, as for any linear filter); when the filter
raises — as `scipy.signal.sosfiltfilt` does for signals not longer than
its padding length — the error propagates instead of the sentinel. -/
theorem c1_sentinel (ff : Sections → List ℝ → Except String (List ℝ))
    (samples : List FloatVal) (fs : ℚ)
    (hne : samples ≠ []) (hfs : 0 < fs)
    (hall : ∀ v ∈ samples, v = FloatVal.fin 0 ∨ v.isFinite = false) :
    (∀ xa, ff (aSections fs) (List.replicate samples.length (0:ℝ)) = .ok xa →
      (∀ y ∈ xa, y = 0) →
      compute_la_eq ff samples fs = .ok ⊥) ∧
    (∀ e, ff (aSections fs) (List.replicate samples.length (0:ℝ)) = .error e →
      compute_la_eq ff samples fs = .error e) := by
  have hdes := design_ok hfs
  have hlen : ¬ (samples.length = 0) := by
    simpa [List.length_eq_zero] using hne
  have hcen := centered_eq_replicate_zero hall
  constructor
  · intro xa hok hz
    have hrms : rmsOf xa = 0 := rmsOf_eq_zero hz
    simp only [compute_la_eq, hdes, if_neg hlen, hcen, hok]
    rw [if_pos (le_of_eq hrms)]
  · intro e herr
    simp only [compute_la_eq, hdes, if_neg hlen, hcen, herr]

/-- Witness for `c1_sentinel` with the sample filter behaviour: a
22-sample all-zero signal passes the minimum-length check and yields the
sentinel, while a four-element malformed signal (zero, NaN, both
infinities) is rejected by the filter and the ValueError propagates. -/
theorem c1_sentinel_witness :
    compute_la_eq sosfiltfiltModel (List.replicate 22 (FloatVal.fin 0)) 25600 =
      .ok ⊥ ∧
    compute_la_eq sosfiltfiltModel
      [FloatVal.fin 0, FloatVal.nan, FloatVal.posinf, FloatVal.neginf] 25600 =
      .error
        "The length of the input vector x must be greater than padlen, which is 21." := by
  constructor
  · refine (c1_sentinel sosfiltfiltModel (List.replicate 22 (FloatVal.fin 0))
      25600 (by simp) (by norm_num) ?_).1 (List.replicate 22 (0:ℝ)) ?_ ?_
    · intro v hv
      exact Or.inl (List.eq_of_mem_replicate hv)
    · simp [sosfiltfiltModel]
    · intro y hy
      simpa using List.eq_of_mem_replicate hy
  · refine (c1_sentinel sosfiltfiltModel
      [FloatVal.fin 0, FloatVal.nan, FloatVal.posinf, FloatVal.neginf]
      25600 (by simp) (by norm_num) ?_).2 _ ?_
    · intro v hv
      fin_cases hv <;> simp [FloatVal.isFinite]
    · simp [sosfiltfiltModel]

/-- C2 counterexample: the claim includes that the computation counts and
reports how many non-finite values were replaced; the source replaces them
silently (main.py lines 67–68 carry no counter and no report), so on the
one-element NaN array the code reports nothing while the reference
pipeline reports one replacement. -/
theorem c2_counterexample :
    reported_replacements [FloatVal.nan] 25600 ≠
      some (spec_replacement_count [FloatVal.nan]) := by
  decide

/-- The signal `compute_la_eq` hands to the filter equals the
sanitize-then-center list of the spec pipeline. -/
theorem centered_eq_spec (samples : List FloatVal) :
    centered samples =
      (samples.map (fun v => if v.isFinite then ((v.val : ℚ) : ℝ) else 0)).map
        (fun y => y - mean (samples.map
          (fun v => if v.isFinite then ((v.val : ℚ) : ℝ) else 0))) := by
  have hsan : (if samples.all FloatVal.isFinite then samples
      else samples.map nan_to_num).map (fun v => ((v.val : ℚ) : ℝ)) =
      samples.map (fun v => if v.isFinite then ((v.val : ℚ) : ℝ) else 0) := by
    by_cases hall : samples.all FloatVal.isFinite
    · rw [if_pos hall]
      apply List.map_congr_left
      intro v hv
      rw [if_pos (List.all_eq_true.1 hall v hv)]
    · rw [if_neg hall, List.map_map]
      apply List.map_congr_left
      intro v _
      cases v <;> simp [nan_to_num, FloatVal.val, FloatVal.isFinite]
  simp only [centered]
  rw [hsan]

/-- C2 amended: with the counting/reporting clause dropped, and on the
subdomain where the zero-phase filter call succeeds, the code equals the
reference pipeline: sanitize non-finite entries to zero (silently),
subtract the arithmetic mean, apply the designed weighting filter
zero-phase, take the RMS, and return the sentinel exactly when the RMS is
zero, else `20*log10(rms/P0)` with `P0 = 20e-6`.  When the filter raises
instead — `sosfiltfilt` rejects non-empty inputs not longer than its
padding length — `compute_la_eq` propagates that error, while the
reference pipeline, total by design, still yields a value. -/
theorem c2_pipeline_eq (ff : Sections → List ℝ → Except String (List ℝ))
    (ffs : Sections → List ℝ → List ℝ)
    (samples : List FloatVal) (fs : ℚ)
    (hne : samples ≠ []) (hfs : 0 < fs) :
    (ff (aSections fs) (centered samples) =
        .ok (ffs (aSections fs) (centered samples)) →
      compute_la_eq ff samples fs = .ok (computeLevelSpec ffs samples fs)) ∧
    (∀ e, ff (aSections fs) (centered samples) = .error e →
      compute_la_eq ff samples fs = .error e) := by
  have hdes := design_ok hfs
  have hlen : ¬ (samples.length = 0) := by
    simpa [List.length_eq_zero] using hne
  have hcen := centered_eq_spec samples
  constructor
  · intro hok
    simp only [compute_la_eq, computeLevelSpec, hdes, if_neg hlen, hok]
    rw [hcen]
    have hnn : 0 ≤ rmsOf (ffs (aSections fs)
        ((samples.map (fun v => if v.isFinite then ((v.val : ℚ) : ℝ) else 0)).map
          (fun y => y - mean (samples.map
            (fun v => if v.isFinite then ((v.val : ℚ) : ℝ) else 0))))) :=
      Real.sqrt_nonneg _
    by_cases h0 : rmsOf (ffs (aSections fs)
        ((samples.map (fun v => if v.isFinite then ((v.val : ℚ) : ℝ) else 0)).map
          (fun y => y - mean (samples.map
            (fun v => if v.isFinite then ((v.val : ℚ) : ℝ) else 0))))) = 0
    · rw [if_pos (le_of_eq h0), if_pos h0]
    · rw [if_neg (not_le.2 (lt_of_le_of_ne hnn (Ne.symm h0))), if_neg h0]
  · intro e herr
    simp only [compute_la_eq, hdes, if_neg hlen, herr]

/-- Witness for `c2_pipeline_eq` with the sample filter behaviour: a
22-sample signal passes the minimum-length check and the code agrees with
the reference pipeline, while on a one-element signal the filter raises
and the ValueError propagates out of `compute_la_eq`. -/
theorem c2_pipeline_eq_witness :
    compute_la_eq sosfiltfiltModel (List.replicate 22 (FloatVal.fin 1)) 25600 =
      .ok (computeLevelSpec (fun _ l => l)
        (List.replicate 22 (FloatVal.fin 1)) 25600) ∧
    compute_la_eq sosfiltfiltModel [FloatVal.fin 1] 25600 =
      .error
        "The length of the input vector x must be greater than padlen, which is 21." := by
  have hl22 : (centered (List.replicate 22 (FloatVal.fin 1))).length = 22 := by
    simp only [centered]
    split_ifs <;> simp
  have hl1 : (centered [FloatVal.fin 1]).length = 1 := by
    simp only [centered]
    split_ifs <;> simp
  constructor
  · refine (c2_pipeline_eq sosfiltfiltModel (fun _ l => l) _ 25600
      (by simp) (by norm_num)).1 ?_
    unfold sosfiltfiltModel
    rw [if_neg (by rw [hl22]; norm_num)]
  · refine (c2_pipeline_eq sosfiltfiltModel (fun _ l => l) _ 25600
      (by simp) (by norm_num)).2 _ ?_
    unfold sosfiltfiltModel
    rw [if_pos (by rw [hl1]; norm_num)]

/-- C10: the store-passing embedding only ever extends the array store, so
the caller's input array — and every other previously allocated array —
holds exactly the same values after `compute_la_eq` as before it: no
in-place numpy operation occurs. -/
theorem c10_no_mutation (ff : Sections → List ℝ → List ℝ)
    (h : List Cell) (i : ℕ) (fs : ℚ) :
    ((runLaEqHeap ff h i fs).1).take h.length = h := by
  simp only [runLaEqHeap]
  split
  · exact List.take_length h
  · cases hdes : design_a_weighting_sos fs with
    | error e =>
      simp only [hdes]
      split_ifs with hall
      · exact List.take_left h _
      · rw [List.append_assoc]
        exact List.take_left h _
    | ok pr =>
      obtain ⟨sec, w⟩ := pr
      simp only [hdes]
      split_ifs with hall hrms <;>
        simp only [List.append_assoc] <;> exact List.take_left h _

end GGHydro
